import Mathlib

/-!
Verification of the value-serialization core of `scylla-cql`
(`src/scylla-cql/src/types/serialize/value.rs`).

The Rust code is shallowly embedded: serializers are pure functions from a
value and a `ColumnType` descriptor to `Except SerializationError (List Nat)`,
where the `List Nat` is the exact sequence of bytes (each `< 256`) that the
cell writer appends to the destination buffer for this one cell, including
the 4-byte big-endian length prefix.  A failing serializer appends nothing
(the cell value builder accumulates its payload locally and only commits it
at finish time, per the design of the writer layer).

`HashMap<&str, _>` (used by `serialize_udt`) is modelled as the raw
association list together with last-occurrence lookup: `collect` on a Rust
`HashMap` keeps, for each key, the value of the last pair inserted, and
`remove` deletes the key entirely; the list model mirrors this with
`lookupLast` and `eraseKey` (which drops every pair with that key, all of
which carry the same key as the single collapsed map entry).
-/

namespace ScyllaCql

/-- `ColumnType` from `frame/response/result.rs` (referenced by `value.rs`):
the recursive schema type descriptor. -/
inductive ColumnType where
  | Custom (name : String)
  | Ascii
  | Boolean
  | Blob
  | Counter
  | Date
  | Decimal
  | Double
  | Duration
  | Float
  | Int
  | BigInt
  | Text
  | Timestamp
  | Inet
  | List (elt : ColumnType)
  | Map (k v : ColumnType)
  | Set (elt : ColumnType)
  | UserDefinedType (type_name : String) (keyspace : String)
      (field_types : List (String × ColumnType))
  | SmallInt
  | TinyInt
  | Time
  | Timeuuid
  | Tuple (elts : List ColumnType)
  | Uuid
  | Varint
  deriving Repr

/-- `CqlValue` from `frame/response/result.rs`: the dynamic value.
Fixed-width machine integers are carried as `Int` (interpreted through
two's-complement encoding at serialization time); `f32`/`f64` are carried
as their raw IEEE-754 bit patterns (a `Nat`), since `to_be_bytes` on a
float emits exactly the bytes of the bit pattern; `Uuid`/`Timeuuid` carry
their 16 bytes; `Inet` carries the 4 or 16 octets; `Decimal` carries the
`(unscaled bigint, i64 scale)` pair returned by
`BigDecimal::as_bigint_and_exponent`. -/
inductive CqlValue where
  | Ascii (s : String)
  | Boolean (b : Bool)
  | Blob (bytes : List Nat)
  | Counter (c : Int)
  | Decimal (unscaled : Int) (scale : Int)
  | Date (d : Nat)
  | Double (bits : Nat)
  | Duration (months days : Int) (nanoseconds : Int)
  | Empty
  | Float (bits : Nat)
  | Int (i : Int)
  | BigInt (i : Int)
  | Text (s : String)
  | Timestamp (t : Int)
  | Inet (octets : List Nat)
  | List (l : List CqlValue)
  | Map (m : List (CqlValue × CqlValue))
  | Set (s : List CqlValue)
  | UserDefinedType (keyspace : String) (type_name : String)
      (fields : List (String × Option CqlValue))
  | SmallInt (i : Int)
  | TinyInt (i : Int)
  | Time (t : Int)
  | Timeuuid (bytes : List Nat)
  | Tuple (elts : List (Option CqlValue))
  | Uuid (bytes : List Nat)
  | Varint (i : Int)
  deriving Repr

/-- `UdtTypeCheckErrorKind` from `value.rs`. -/
inductive UdtTypeCheckErrorKind where
  | NotUdt
  | NameMismatch (keyspace : String) (type_name : String)
  | ValueMissingForUdtField (field_name : String)
  | NoSuchFieldInUdt (field_name : String)
  | FieldNameMismatch (rust_field_name : String) (db_field_name : String)
  deriving Repr

/-- `TupleTypeCheckErrorKind` from `value.rs`. -/
inductive TupleTypeCheckErrorKind where
  | NotTuple
  | WrongElementCount (actual : Nat) (asked_for : Nat)
  deriving Repr

/-- `SetOrListTypeCheckErrorKind` from `value.rs`. -/
inductive SetOrListTypeCheckErrorKind where
  | NotSetOrList
  deriving Repr

/-- `MapTypeCheckErrorKind` from `value.rs`. -/
inductive MapTypeCheckErrorKind where
  | NotMap
  deriving Repr

/-- `BuiltinTypeCheckErrorKind` from `value.rs`.  `MismatchedType` carries
the whitelist of accepted CQL types, exactly as the `expected` slice does. -/
inductive BuiltinTypeCheckErrorKind where
  | MismatchedType (expected : List ColumnType)
  | NotEmptyable
  | SetOrListError (kind : SetOrListTypeCheckErrorKind)
  | MapError (kind : MapTypeCheckErrorKind)
  | TupleError (kind : TupleTypeCheckErrorKind)
  | UdtError (kind : UdtTypeCheckErrorKind)
  | CustomTypeUnsupported
  deriving Repr

/-- `ValueToSerializeCqlAdapterError` from `value.rs` (the legacy adapter's
error type). -/
inductive ValueToSerializeCqlAdapterError where
  | TooBig
  | TooShort (size : Nat)
  | DeclaredVsActualSizeMismatch (declared : Nat) (actual : Nat)
  | InvalidDeclaredSize (size : Int)
  deriving Repr

mutual
/-- `BuiltinSerializationErrorKind` from `value.rs`. -/
inductive BuiltinSerializationErrorKind where
  | SizeOverflow
  | ValueOverflow
  | SetOrListError (kind : SetOrListSerializationErrorKind)
  | MapError (kind : MapSerializationErrorKind)
  | TupleError (kind : TupleSerializationErrorKind)
  | UdtError (kind : UdtSerializationErrorKind)

/-- `SetOrListSerializationErrorKind` from `value.rs`. -/
inductive SetOrListSerializationErrorKind where
  | TooManyElements
  | ElementSerializationFailed (err : SerializationError)

/-- `MapSerializationErrorKind` from `value.rs`. -/
inductive MapSerializationErrorKind where
  | TooManyElements
  | KeySerializationFailed (err : SerializationError)
  | ValueSerializationFailed (err : SerializationError)

/-- `TupleSerializationErrorKind` from `value.rs`. -/
inductive TupleSerializationErrorKind where
  | ElementSerializationFailed (index : Nat) (err : SerializationError)

/-- `UdtSerializationErrorKind` from `value.rs`. -/
inductive UdtSerializationErrorKind where
  | FieldSerializationFailed (field_name : String) (err : SerializationError)

/-- `SerializationError` from `types/serialize/mod.rs` is a type-erased
`Arc<dyn Error>`; in this development it only ever holds one of the three
concrete error types of `value.rs`, so it is modelled as the closed sum of
them.  `typeCheck` flattens `BuiltinTypeCheckError { rust_name, got, kind }`
and `ser` flattens `BuiltinSerializationError { rust_name, got, kind }`.
`rust_name` (`std::any::type_name`) is modelled by the short Rust type name. -/
inductive SerializationError where
  | typeCheck (rust_name : String) (got : ColumnType) (kind : BuiltinTypeCheckErrorKind)
  | ser (rust_name : String) (got : ColumnType) (kind : BuiltinSerializationErrorKind)
  | legacyAdapter (err : ValueToSerializeCqlAdapterError)
end

/-- `mk_typck_err_named` from `value.rs`. -/
def mk_typck_err_named (name : String) (got : ColumnType)
    (kind : BuiltinTypeCheckErrorKind) : SerializationError :=
  .typeCheck name got kind

/-- `mk_ser_err_named` from `value.rs`. -/
def mk_ser_err_named (name : String) (got : ColumnType)
    (kind : BuiltinSerializationErrorKind) : SerializationError :=
  .ser name got kind

/-! ### The cell writer (byte-level framing)

The writer layer (`types/serialize/writers.rs`) is not among the provided
source files; the definitions below are modelled from the spec: a cell is a
4-byte big-endian signed length followed by that many payload bytes, `-1`
for null, `-2` for unset; a value builder accumulates sub-cells and raw
bytes into a payload and frames it once at finish time, failing with a size
overflow if the payload exceeds `i32::MAX` bytes. -/

/-- `i32::MAX`. -/
def i32Max : Nat := 2147483647

/-- Big-endian base-256 digits of `n`, `w` bytes wide (`n < 256 ^ w`). -/
def beBytes : Nat → Nat → List Nat
  | 0, _ => []
  | w + 1, n => beBytes w (n / 256) ++ [n % 256]

/-- The 4-byte big-endian two's-complement encoding of an `i32`
(`to_be_bytes`). -/
def be32 (n : Int) : List Nat :=
  beBytes 4 (n.emod 4294967296).toNat

/-- Two's-complement big-endian encoding of a fixed-width integer,
`w` bytes wide (`to_be_bytes` for `i8`/`i16`/`i32`/`i64`). -/
def twosComp (w : Nat) (n : Int) : List Nat :=
  beBytes w (n.emod ((256 : Int) ^ w)).toNat

/-- Modelled from the spec: `CellWriter::set_null` emits a cell whose
length field is `-1` and no payload. -/
def nullCell : List Nat := be32 (-1)

/-- Modelled from the spec: `CellWriter::set_unset` emits a cell whose
length field is `-2` and no payload. -/
def unsetCell : List Nat := be32 (-2)

/-- Modelled from the spec: a finished cell is the 4-byte big-endian
payload length followed by the payload. -/
def cellOf (payload : List Nat) : List Nat :=
  be32 payload.length ++ payload

/-- Modelled from the spec: `CellWriter::set_value` frames the payload,
failing (with `CellOverflowError`, mapped by each caller) when the payload
exceeds `i32::MAX` bytes. -/
def setValue (payload : List Nat) : Option (List Nat) :=
  if payload.length ≤ i32Max then some (cellOf payload) else none

/-- Modelled from the spec: `CellValueBuilder::finish` frames the
accumulated payload, failing when it exceeds `i32::MAX` bytes. -/
def finishBuilder (payload : List Nat) : Option (List Nat) :=
  if payload.length ≤ i32Max then some (cellOf payload) else none

/-! ### Encoding helpers for scalar payloads -/

/-- The UTF-8 bytes of one character (`str::as_bytes` operates on UTF-8). -/
def charUtf8 (c : Char) : List Nat :=
  let n := c.toNat
  if n < 128 then [n]
  else if n < 2048 then [192 + n / 64, 128 + n % 64]
  else if n < 65536 then [224 + n / 4096, 128 + n / 64 % 64, 128 + n % 64]
  else [240 + n / 262144, 128 + n / 4096 % 64, 128 + n / 64 % 64, 128 + n % 64]

/-- The UTF-8 bytes of a string (`as_bytes`). -/
def strBytes (s : String) : List Nat :=
  s.data.foldr (fun c acc => charUtf8 c ++ acc) []

/-- Model of `num_bigint::BigInt::to_signed_bytes_be` (an external
dependency of `value.rs`): the minimal big-endian two's-complement byte
encoding of an arbitrary-precision integer.  The fuel argument only bounds
the recursion depth; `natAbs n` steps always suffice because the argument
is divided by 256 (arithmetic shift) at every step. -/
def signedBytesBEAux : Nat → Int → List Nat
  | 0, n => [(n.emod 256).toNat]
  | fuel + 1, n =>
    if -128 ≤ n ∧ n < 128 then [(n.emod 256).toNat]
    else signedBytesBEAux fuel (n.fdiv 256) ++ [(n.emod 256).toNat]

/-- `to_signed_bytes_be` (see `signedBytesBEAux`). -/
def signedBytesBE (n : Int) : List Nat :=
  signedBytesBEAux n.natAbs n

/-- Modelled from the spec: the zigzag step of the signed vint encoding
used for `Duration` components (`frame/types.rs::vint_encode`, not among
the provided sources): `(n >> 63) ^ (n << 1)` as an unsigned 64-bit value. -/
def zigzag (n : Int) : Nat :=
  if 0 ≤ n then 2 * n.toNat else 2 * (-n - 1).toNat + 1

/-- Modelled from the spec: number of bytes of the unsigned vint encoding
of `u` (1 to 9). -/
def vintSize (u : Nat) : Nat :=
  if u < 2 ^ 7 then 1
  else if u < 2 ^ 14 then 2
  else if u < 2 ^ 21 then 3
  else if u < 2 ^ 28 then 4
  else if u < 2 ^ 35 then 5
  else if u < 2 ^ 42 then 6
  else if u < 2 ^ 49 then 7
  else if u < 2 ^ 56 then 8
  else 9

/-- Modelled from the spec: `vint_encode` writes a variable-length
encoding of a signed 64-bit integer: zigzag, then a first byte carrying
`size - 1` leading one bits and the high bits of the value, then the
remaining `size - 1` bytes big-endian. -/
def vint_encode (n : Int) : List Nat :=
  let u := zigzag n
  let size := vintSize u
  if size = 9 then 255 :: beBytes 8 u
  else ((256 - 2 ^ (9 - size)) % 256 + u / 256 ^ (size - 1)) :: beBytes (size - 1) u

/-! ### The association-list model of `serialize_udt`'s field `HashMap` -/

/-- Value associated with key `k` in the `HashMap` built by `collect`:
the value of the *last* pair with that key (`HashMap::insert` overwrites). -/
def lookupLast : List (String × α) → String → Option α
  | [], _ => none
  | (k, v) :: rest, key =>
    match lookupLast rest key with
    | some r => some r
    | none => if k = key then some v else none

/-- `HashMap::remove` on the association-list model: drops every pair with
the key (after `collect`, all of them collapsed into the one map entry). -/
def eraseKey (m : List (String × α)) (key : String) : List (String × α) :=
  m.filter (fun e => decide (e.1 ≠ key))

/-- `keys().min()` on the association-list model: the lexicographically
smallest key, `none` when the map is empty.  Rust `&str` ordering is
byte-wise lexicographic on UTF-8, which coincides with the code-point
lexicographic `String` order used here. -/
def minKey : List (String × α) → Option String
  | [] => none
  | (k, _) :: rest =>
    match minKey rest with
    | none => some k
    | some b => if k < b then some k else some b

/-- Modelled from the spec: `ColumnType::supports_special_empty_value`
(defined in `frame/response/result.rs`, not among the provided sources) —
the descriptors for which the protocol's zero-length special value is
meaningful. -/
def supports_special_empty_value : ColumnType → Bool
  | .Counter | .Duration | .Custom _ => false
  | .List _ | .Map _ _ | .Set _ | .UserDefinedType _ _ _ => false
  | _ => true

/-- `ColumnType::Custom` discriminator (the first check of
`serialize_cql_value`). -/
def ColumnType.isCustom : ColumnType → Bool
  | .Custom _ => true
  | _ => false

/-! ### Scalar serializer implementations

One definition per `impl SerializeCql for T` in `value.rs`, named after the
Rust type.  Each first performs `exact_type_check!` (a match on the
descriptor, any other constructor producing a `MismatchedType` error with
the whitelist), then frames the payload.  Where the source calls
`set_value(...).unwrap()` the payload is at most 27 bytes, so the framed
cell is produced directly with `cellOf`. -/

/-- Result type of every serializer: the framed bytes of one cell. -/
abbrev SerResult := Except SerializationError (List Nat)

/-- `impl SerializeCql for i8`. -/
def serialize_i8 (me : Int) (typ : ColumnType) : SerResult :=
  match typ with
  | .TinyInt => .ok (cellOf (twosComp 1 me))
  | _ => .error (mk_typck_err_named "i8" typ (.MismatchedType [.TinyInt]))

/-- `impl SerializeCql for i16`. -/
def serialize_i16 (me : Int) (typ : ColumnType) : SerResult :=
  match typ with
  | .SmallInt => .ok (cellOf (twosComp 2 me))
  | _ => .error (mk_typck_err_named "i16" typ (.MismatchedType [.SmallInt]))

/-- `impl SerializeCql for i32`. -/
def serialize_i32 (me : Int) (typ : ColumnType) : SerResult :=
  match typ with
  | .Int => .ok (cellOf (twosComp 4 me))
  | _ => .error (mk_typck_err_named "i32" typ (.MismatchedType [.Int]))

/-- `impl SerializeCql for i64`. -/
def serialize_i64 (me : Int) (typ : ColumnType) : SerResult :=
  match typ with
  | .BigInt => .ok (cellOf (twosComp 8 me))
  | _ => .error (mk_typck_err_named "i64" typ (.MismatchedType [.BigInt]))

/-- `impl SerializeCql for BigDecimal`: 4-byte big-endian scale (checked to
fit an `i32`, else `ValueOverflow`), then the minimal signed big-endian
unscaled value, framed by the value builder (`SizeOverflow` on overflow). -/
def serialize_BigDecimal (unscaled scale : Int) (typ : ColumnType) : SerResult :=
  match typ with
  | .Decimal =>
    if -2147483648 ≤ scale ∧ scale ≤ 2147483647 then
      match finishBuilder (be32 scale ++ signedBytesBE unscaled) with
      | some c => .ok c
      | none => .error (mk_ser_err_named "BigDecimal" typ .SizeOverflow)
    else .error (mk_ser_err_named "BigDecimal" typ .ValueOverflow)
  | _ => .error (mk_typck_err_named "BigDecimal" typ (.MismatchedType [.Decimal]))

/-- `impl SerializeCql for CqlDate` (`u32` day count). -/
def serialize_CqlDate (me : Nat) (typ : ColumnType) : SerResult :=
  match typ with
  | .Date => .ok (cellOf (beBytes 4 (me % 4294967296)))
  | _ => .error (mk_typck_err_named "CqlDate" typ (.MismatchedType [.Date]))

/-- `impl SerializeCql for CqlTimestamp` (`i64` milliseconds). -/
def serialize_CqlTimestamp (me : Int) (typ : ColumnType) : SerResult :=
  match typ with
  | .Timestamp => .ok (cellOf (twosComp 8 me))
  | _ => .error (mk_typck_err_named "CqlTimestamp" typ (.MismatchedType [.Timestamp]))

/-- `impl SerializeCql for CqlTime` (`i64` nanoseconds). -/
def serialize_CqlTime (me : Int) (typ : ColumnType) : SerResult :=
  match typ with
  | .Time => .ok (cellOf (twosComp 8 me))
  | _ => .error (mk_typck_err_named "CqlTime" typ (.MismatchedType [.Time]))

/-- `impl SerializeCql for bool`: one byte, `1` for true and `0` for false. -/
def serialize_bool (me : Bool) (typ : ColumnType) : SerResult :=
  match typ with
  | .Boolean => .ok (cellOf [if me then 1 else 0])
  | _ => .error (mk_typck_err_named "bool" typ (.MismatchedType [.Boolean]))

/-- `impl SerializeCql for f32`: the 4 bytes of the IEEE-754 bit pattern. -/
def serialize_f32 (bits : Nat) (typ : ColumnType) : SerResult :=
  match typ with
  | .Float => .ok (cellOf (beBytes 4 (bits % 4294967296)))
  | _ => .error (mk_typck_err_named "f32" typ (.MismatchedType [.Float]))

/-- `impl SerializeCql for f64`: the 8 bytes of the IEEE-754 bit pattern. -/
def serialize_f64 (bits : Nat) (typ : ColumnType) : SerResult :=
  match typ with
  | .Double => .ok (cellOf (beBytes 8 (bits % 18446744073709551616)))
  | _ => .error (mk_typck_err_named "f64" typ (.MismatchedType [.Double]))

/-- `impl SerializeCql for Uuid`: the 16 raw bytes; accepts both `Uuid`
and `Timeuuid` descriptors. -/
def serialize_Uuid (bytes : List Nat) (typ : ColumnType) : SerResult :=
  match typ with
  | .Uuid | .Timeuuid => .ok (cellOf bytes)
  | _ => .error (mk_typck_err_named "Uuid" typ (.MismatchedType [.Uuid, .Timeuuid]))

/-- `impl SerializeCql for BigInt` (the `Varint` CQL kind): minimal signed
big-endian bytes, `SizeOverflow` when over `i32::MAX` bytes. -/
def serialize_BigInt (me : Int) (typ : ColumnType) : SerResult :=
  match typ with
  | .Varint =>
    match setValue (signedBytesBE me) with
    | some c => .ok c
    | none => .error (mk_ser_err_named "BigInt" typ .SizeOverflow)
  | _ => .error (mk_typck_err_named "BigInt" typ (.MismatchedType [.Varint]))

/-- `impl SerializeCql for &str`: raw UTF-8 bytes, `SizeOverflow` when over
`i32::MAX` bytes; accepts `Ascii` and `Text`. -/
def serialize_str (me : String) (typ : ColumnType) : SerResult :=
  match typ with
  | .Ascii | .Text =>
    match setValue (strBytes me) with
    | some c => .ok c
    | none => .error (mk_ser_err_named "&str" typ .SizeOverflow)
  | _ => .error (mk_typck_err_named "&str" typ (.MismatchedType [.Ascii, .Text]))

/-- `impl SerializeCql for String` (same body as `&str`). -/
def serialize_String (me : String) (typ : ColumnType) : SerResult :=
  match typ with
  | .Ascii | .Text =>
    match setValue (strBytes me) with
    | some c => .ok c
    | none => .error (mk_ser_err_named "String" typ .SizeOverflow)
  | _ => .error (mk_typck_err_named "String" typ (.MismatchedType [.Ascii, .Text]))

/-- `impl SerializeCql for Vec<u8>` (also the body of the `&[u8]` and
`[u8; N]` impls, up to the reported Rust name): raw bytes against `Blob`. -/
def serialize_Vec_u8 (me : List Nat) (typ : ColumnType) : SerResult :=
  match typ with
  | .Blob =>
    match setValue me with
    | some c => .ok c
    | none => .error (mk_ser_err_named "Vec<u8>" typ .SizeOverflow)
  | _ => .error (mk_typck_err_named "Vec<u8>" typ (.MismatchedType [.Blob]))

/-- `impl SerializeCql for IpAddr`: the 4 (V4) or 16 (V6) address octets. -/
def serialize_IpAddr (octets : List Nat) (typ : ColumnType) : SerResult :=
  match typ with
  | .Inet => .ok (cellOf octets)
  | _ => .error (mk_typck_err_named "IpAddr" typ (.MismatchedType [.Inet]))

/-- `impl SerializeCql for Counter` (`i64`). -/
def serialize_Counter (me : Int) (typ : ColumnType) : SerResult :=
  match typ with
  | .Counter => .ok (cellOf (twosComp 8 me))
  | _ => .error (mk_typck_err_named "Counter" typ (.MismatchedType [.Counter]))

/-- `impl SerializeCql for CqlDuration`: three vint-encoded components
(months, days as `i64`-widened `i32`s, nanoseconds). -/
def serialize_CqlDuration (months days nanoseconds : Int) (typ : ColumnType) :
    SerResult :=
  match typ with
  | .Duration =>
    .ok (cellOf (vint_encode months ++ vint_encode days ++ vint_encode nanoseconds))
  | _ => .error (mk_typck_err_named "CqlDuration" typ (.MismatchedType [.Duration]))

/-- `impl SerializeCql for Option<T>`: `Some` delegates to the inner
serializer, `None` emits the null cell without consulting the descriptor. -/
def serialize_Option (ser : α → ColumnType → SerResult) (me : Option α)
    (typ : ColumnType) : SerResult :=
  match me with
  | some v => ser v typ
  | none => .ok nullCell

/-- `impl SerializeCql for Unset`: always the unset cell, for any
descriptor. -/
def serialize_Unset (_typ : ColumnType) : SerResult :=
  .ok unsetCell

/-- `MaybeUnset` from `frame/value.rs`. -/
inductive MaybeUnset (α : Type) where
  | Unset
  | Set (v : α)

/-- `impl SerializeCql for MaybeUnset<V>`. -/
def serialize_MaybeUnset (ser : α → ColumnType → SerResult) (me : MaybeUnset α)
    (typ : ColumnType) : SerResult :=
  match me with
  | .Set v => ser v typ
  | .Unset => .ok unsetCell

/-- `fix_cql_value_name_in_err` from `value.rs`: rewrites the `rust_name`
of the outermost built-in error to `CqlValue`; other (legacy-adapter)
errors pass through unchanged. -/
def fix_cql_value_name_in_err : SerializationError → SerializationError
  | .typeCheck _ got kind => .typeCheck "CqlValue" got kind
  | .ser _ got kind => .ser "CqlValue" got kind
  | .legacyAdapter e => .legacyAdapter e

/-- Number of declared fields of a UDT descriptor (termination measure
helper for the `serialize_udt` field loop). -/
def udtArity : ColumnType → Nat
  | .UserDefinedType _ _ fts => fts.length
  | _ => 0

theorem lookupLast_sizeOf_lt {α : Type} [SizeOf α] :
    ∀ {m : List (String × α)} {key : String} {v : α},
      lookupLast m key = some v → sizeOf v < sizeOf m := by
  intro m
  induction m with
  | nil => intro key v h; simp [lookupLast] at h
  | cons e rest ih =>
    intro key v h
    obtain ⟨k, w⟩ := e
    rw [lookupLast] at h
    cases hr : lookupLast rest key with
    | some r =>
      rw [hr] at h
      cases h
      have := ih hr
      simp only [List.cons.sizeOf_spec, Prod.mk.sizeOf_spec]
      omega
    | none =>
      rw [hr] at h
      by_cases hk : k = key
      · simp only [hk, if_pos rfl] at h
        cases h
        simp only [List.cons.sizeOf_spec, Prod.mk.sizeOf_spec]
        omega
      · simp [hk] at h

theorem sizeOf_filter_le {α : Type} [SizeOf α] (p : α → Bool) (l : List α) :
    sizeOf (l.filter p) ≤ sizeOf l := by
  induction l with
  | nil => simp
  | cons a l ih =>
    rw [List.filter_cons]
    by_cases h : p a = true
    · rw [if_pos h, List.cons.sizeOf_spec, List.cons.sizeOf_spec]
      omega
    · rw [if_neg h, List.cons.sizeOf_spec]
      omega

mutual

/-- `serialize_cql_value` from `value.rs`: rejects `Custom` descriptors,
then dispatches on the dynamic value's tag to the matching built-in
serializer. -/
def serialize_cql_value (v : CqlValue) (typ : ColumnType) : SerResult :=
  if ColumnType.isCustom typ then
    .error (mk_typck_err_named "CqlValue" typ .CustomTypeUnsupported)
  else
    match v with
    | .Ascii a => serialize_String a typ
    | .Boolean b => serialize_bool b typ
    | .Blob b => serialize_Vec_u8 b typ
    | .Counter c => serialize_Counter c typ
    | .Decimal u s => serialize_BigDecimal u s typ
    | .Date d => serialize_CqlDate d typ
    | .Double bits => serialize_f64 bits typ
    | .Duration mo d ns => serialize_CqlDuration mo d ns typ
    | .Empty =>
      if supports_special_empty_value typ then .ok (cellOf [])
      else .error (mk_typck_err_named "CqlValue" typ .NotEmptyable)
    | .Float bits => serialize_f32 bits typ
    | .Int i => serialize_i32 i typ
    | .BigInt i => serialize_i64 i typ
    | .Text t => serialize_String t typ
    | .Timestamp t => serialize_CqlTimestamp t typ
    | .Inet o => serialize_IpAddr o typ
    | .List l => serialize_Vec_CqlValue l typ
    | .Map m => serialize_Map_CqlValue m typ
    | .Set s => serialize_Vec_CqlValue s typ
    | .UserDefinedType ks tn fields => serialize_udt typ ks tn fields
    | .SmallInt i => serialize_i16 i typ
    | .TinyInt i => serialize_i8 i typ
    | .Time t => serialize_CqlTime t typ
    | .Timeuuid u => serialize_Uuid u typ
    | .Tuple t =>
      match typ with
      | .Tuple fields =>
        if fields.length < t.length then
          .error (mk_typck_err_named "CqlValue" typ
            (.TupleError (.WrongElementCount t.length fields.length)))
        else serialize_tuple_like typ fields t
      | _ => .error (mk_typck_err_named "CqlValue" typ (.TupleError .NotTuple))
    | .Uuid u => serialize_Uuid u typ
    | .Varint i => serialize_BigInt i typ
termination_by (sizeOf v, 0)
decreasing_by
all_goals (apply Prod.Lex.left; simp_arith)

/-- `impl SerializeCql for CqlValue`: `serialize_cql_value` with the
`rust_name` of any resulting error fixed to `CqlValue`. -/
def serializeCqlValue (v : CqlValue) (typ : ColumnType) : SerResult :=
  match serialize_cql_value v typ with
  | .ok c => .ok c
  | .error e => .error (fix_cql_value_name_in_err e)
termination_by (sizeOf v, 1)
decreasing_by
all_goals (apply Prod.Lex.right; omega)

/-- `impl SerializeCql for Vec<CqlValue>` (also reached from the
`CqlValue::Set` arm): `serialize_sequence` specialised to `CqlValue`
elements.  Type-check, then the element-count bound, then the 4-byte count
and each element as a framed sub-cell. -/
def serialize_Vec_CqlValue (l : List CqlValue) (typ : ColumnType) : SerResult :=
  match typ with
  | .List elt | .Set elt =>
    if l.length ≤ i32Max then
      match serializeCqlElems typ elt l with
      | .error e => .error e
      | .ok elems =>
        match finishBuilder (be32 l.length ++ elems) with
        | some c => .ok c
        | none => .error (mk_ser_err_named "Vec<CqlValue>" typ .SizeOverflow)
    else
      .error (mk_ser_err_named "Vec<CqlValue>" typ (.SetOrListError .TooManyElements))
  | _ => .error (mk_typck_err_named "Vec<CqlValue>" typ (.SetOrListError .NotSetOrList))
termination_by (sizeOf l, 1)
decreasing_by
all_goals (apply Prod.Lex.right; omega)

/-- The element loop of `serialize_sequence` for `CqlValue` elements:
each element is serialized with the `CqlValue` impl, failures wrapped in
`ElementSerializationFailed`. -/
def serializeCqlElems (typ elt : ColumnType) (l : List CqlValue) : SerResult :=
  match l with
  | [] => .ok []
  | v :: rest =>
    match serializeCqlValue v elt with
    | .error err =>
      .error (mk_ser_err_named "Vec<CqlValue>" typ
        (.SetOrListError (.ElementSerializationFailed err)))
    | .ok c =>
      match serializeCqlElems typ elt rest with
      | .error e => .error e
      | .ok tail => .ok (c ++ tail)
termination_by (sizeOf l, 0)
decreasing_by
all_goals (apply Prod.Lex.left; simp_arith)

/-- The `CqlValue::Map` arm: `serialize_mapping` with `rust_name`
`CqlValue`, key and value types from the `Map` descriptor. -/
def serialize_Map_CqlValue (m : List (CqlValue × CqlValue)) (typ : ColumnType) :
    SerResult :=
  match typ with
  | .Map ktyp vtyp =>
    if m.length ≤ i32Max then
      match serializeMapEntries typ ktyp vtyp m with
      | .error e => .error e
      | .ok elems =>
        match finishBuilder (be32 m.length ++ elems) with
        | some c => .ok c
        | none => .error (mk_ser_err_named "CqlValue" typ .SizeOverflow)
    else .error (mk_ser_err_named "CqlValue" typ (.MapError .TooManyElements))
  | _ => .error (mk_typck_err_named "CqlValue" typ (.MapError .NotMap))
termination_by (sizeOf m, 1)
decreasing_by
all_goals (apply Prod.Lex.right; omega)

/-- The pair loop of `serialize_mapping`: interleaved key and value
sub-cells, failures wrapped in `KeySerializationFailed` /
`ValueSerializationFailed`. -/
def serializeMapEntries (typ ktyp vtyp : ColumnType)
    (l : List (CqlValue × CqlValue)) : SerResult :=
  match l with
  | [] => .ok []
  | (k, v) :: rest =>
    match serializeCqlValue k ktyp with
    | .error err =>
      .error (mk_ser_err_named "CqlValue" typ (.MapError (.KeySerializationFailed err)))
    | .ok kc =>
      match serializeCqlValue v vtyp with
      | .error err =>
        .error (mk_ser_err_named "CqlValue" typ (.MapError (.ValueSerializationFailed err)))
      | .ok vc =>
        match serializeMapEntries typ ktyp vtyp rest with
        | .error e => .error e
        | .ok tail => .ok (kc ++ vc ++ tail)
termination_by (sizeOf l, 0)
decreasing_by
all_goals (apply Prod.Lex.left; simp_arith)

/-- `serialize_udt` from `value.rs`. -/
def serialize_udt (typ : ColumnType) (keyspace type_name : String)
    (values : List (String × Option CqlValue)) : SerResult :=
  match h : typ with
  | .UserDefinedType dst_type_name dst_keyspace field_types =>
    if keyspace ≠ dst_keyspace ∨ type_name ≠ dst_type_name then
      .error (mk_typck_err_named "CqlValue" typ
        (.UdtError (.NameMismatch dst_keyspace dst_type_name)))
    else
      match serializeUdtFields typ field_types values with
      | .error e => .error e
      | .ok (payload, leftover) =>
        match minKey leftover with
        | some fname =>
          .error (mk_typck_err_named "CqlValue" typ
            (.UdtError (.NoSuchFieldInUdt fname)))
        | none =>
          match finishBuilder payload with
          | some c => .ok c
          | none => .error (mk_ser_err_named "CqlValue" typ .SizeOverflow)
  | _ => .error (mk_typck_err_named "CqlValue" typ (.UdtError .NotUdt))
termination_by (sizeOf values, udtArity typ + 1)
decreasing_by
all_goals (apply Prod.Lex.right; simp [h, udtArity])

/-- The field loop of `serialize_udt`: for each descriptor field in
declared order, remove the value's field from the map
(`remove(..).and_then(|x| x.as_ref())`); absent ⇒ a null sub-cell, present
⇒ a recursively framed sub-cell (failure wrapped with the field name).
Returns the accumulated payload and the leftover map. -/
def serializeUdtFields (typ : ColumnType)
    (field_types : List (String × ColumnType))
    (indexed : List (String × Option CqlValue)) :
    Except SerializationError (List Nat × List (String × Option CqlValue)) :=
  match field_types with
  | [] => .ok ([], indexed)
  | (fname, ftyp) :: rest =>
    match hfv : (lookupLast indexed fname).bind id with
    | none =>
      match serializeUdtFields typ rest (eraseKey indexed fname) with
      | .error e => .error e
      | .ok (tail, leftover) => .ok (nullCell ++ tail, leftover)
    | some v =>
      match serialize_cql_value v ftyp with
      | .error err =>
        .error (mk_ser_err_named "CqlValue" typ
          (.UdtError (.FieldSerializationFailed fname (fix_cql_value_name_in_err err))))
      | .ok c =>
        match serializeUdtFields typ rest (eraseKey indexed fname) with
        | .error e => .error e
        | .ok (tail, leftover) => .ok (c ++ tail, leftover)
termination_by (sizeOf indexed, field_types.length)
decreasing_by
all_goals first
  | (apply Prod.Lex.left
     obtain ⟨ov, hov, hid⟩ := Option.bind_eq_some.mp hfv
     simp only [id] at hid
     subst hid
     have hlt := lookupLast_sizeOf_lt hov
     simp only [Option.some.sizeOf_spec] at hlt
     omega)
  | (have hle : sizeOf (eraseKey indexed fname) ≤ sizeOf indexed :=
       sizeOf_filter_le _ _
     rcases lt_or_eq_of_le hle with hlt | heq
     · exact Prod.Lex.left _ _ hlt
     · rw [heq]
       exact Prod.Lex.right _ (Nat.lt_succ_self _))

/-- `serialize_tuple_like` from `value.rs`. -/
def serialize_tuple_like (typ : ColumnType) (field_types : List ColumnType)
    (field_values : List (Option CqlValue)) : SerResult :=
  match serializeTupleElems typ field_types field_values 0 with
  | .error e => .error e
  | .ok payload =>
    match finishBuilder payload with
    | some c => .ok c
    | none => .error (mk_ser_err_named "CqlValue" typ .SizeOverflow)
termination_by (sizeOf field_values, 1)
decreasing_by
all_goals (apply Prod.Lex.right; omega)

/-- The element loop of `serialize_tuple_like`: the `zip` of values and
descriptor element types (stopping at the shorter), `None` elements as
null sub-cells, failures wrapped with the element index. -/
def serializeTupleElems (typ : ColumnType) (field_types : List ColumnType)
    (field_values : List (Option CqlValue)) (index : Nat) : SerResult :=
  match field_values, field_types with
  | el :: vrest, el_typ :: trest =>
    match el with
    | none =>
      match serializeTupleElems typ trest vrest (index + 1) with
      | .error e => .error e
      | .ok tail => .ok (nullCell ++ tail)
    | some elv =>
      match serialize_cql_value elv el_typ with
      | .error err =>
        .error (mk_ser_err_named "CqlValue" typ
          (.TupleError (.ElementSerializationFailed index (fix_cql_value_name_in_err err))))
      | .ok c =>
        match serializeTupleElems typ trest vrest (index + 1) with
        | .error e => .error e
        | .ok tail => .ok (c ++ tail)
  | _, _ => .ok []
termination_by (sizeOf field_values, 0)
decreasing_by
all_goals (apply Prod.Lex.left; simp_arith)

end

/-! ### `serialize_sequence` and `serialize_mapping`, generic form

The generic functions of `value.rs` take the element serializer(s) through
the `SerializeCql` bound; here they are explicit function arguments. -/

/-- The element loop of `serialize_sequence`. -/
def serializeSeqElems (rust_name : String) (ser : α → ColumnType → SerResult)
    (typ elt : ColumnType) : List α → SerResult
  | [] => .ok []
  | v :: rest =>
    match ser v elt with
    | .error err =>
      .error (mk_ser_err_named rust_name typ
        (.SetOrListError (.ElementSerializationFailed err)))
    | .ok c =>
      match serializeSeqElems rust_name ser typ elt rest with
      | .error e => .error e
      | .ok tail => .ok (c ++ tail)

/-- `serialize_sequence` from `value.rs`: accepts a `List` or `Set`
descriptor, checks that the element count fits an `i32` (else
`TooManyElements`, before any element is serialized), then emits the
4-byte big-endian count followed by each element as a framed sub-cell. -/
def serialize_sequence (rust_name : String) (ser : α → ColumnType → SerResult)
    (l : List α) (typ : ColumnType) : SerResult :=
  match typ with
  | .List elt | .Set elt =>
    if l.length ≤ i32Max then
      match serializeSeqElems rust_name ser typ elt l with
      | .error e => .error e
      | .ok elems =>
        match finishBuilder (be32 l.length ++ elems) with
        | some c => .ok c
        | none => .error (mk_ser_err_named rust_name typ .SizeOverflow)
    else .error (mk_ser_err_named rust_name typ (.SetOrListError .TooManyElements))
  | _ => .error (mk_typck_err_named rust_name typ (.SetOrListError .NotSetOrList))

/-- `impl SerializeCql for Vec<i32>` = `serialize_sequence` over the `i32`
serializer. -/
def serialize_Vec_i32 : List Int → ColumnType → SerResult :=
  serialize_sequence "Vec<i32>" serialize_i32

/-! ### Fixed-arity Rust tuples (`impl_tuple` macro)

The macro generates, for every arity 1..16, an impl whose type-check
pattern `[t0, ..., tn]` matches a `Tuple` descriptor of *exactly* that
arity.  The generic model below takes the list of the Rust tuple's element
serializers (each closure `fi ↦ Ti::serialize(fi, ·)`); its length is the
Rust arity. -/

/-- The element loop of an `impl_tuple` impl: pairwise serialization of the
elements against the descriptor element types, failures wrapped with the
element index (no `rust_name` fixing — the elements are arbitrary types). -/
def fixedTupleElems (rust_name : String) (typ : ColumnType) :
    List (ColumnType → SerResult) → List ColumnType → Nat → SerResult
  | [], _, _ => .ok []
  | _, [], _ => .ok []
  | f :: frest, t :: trest, index =>
    match f t with
    | .error err =>
      .error (mk_ser_err_named rust_name typ
        (.TupleError (.ElementSerializationFailed index err)))
    | .ok c =>
      match fixedTupleElems rust_name typ frest trest (index + 1) with
      | .error e => .error e
      | .ok tail => .ok (c ++ tail)

/-- The body of an `impl_tuple`-generated `serialize` for a Rust tuple of
arity `elems.length`: the descriptor must be a `Tuple` whose declared
arity is exactly the Rust arity (the slice pattern `[t0, ..., tn]`), else
`WrongElementCount { actual, asked_for }`. -/
def serializeFixedTuple (rust_name : String)
    (elems : List (ColumnType → SerResult)) (typ : ColumnType) : SerResult :=
  match typ with
  | .Tuple typs =>
    if typs.length = elems.length then
      match fixedTupleElems rust_name typ elems typs 0 with
      | .error e => .error e
      | .ok payload =>
        match finishBuilder payload with
        | some c => .ok c
        | none => .error (mk_ser_err_named rust_name typ .SizeOverflow)
    else
      .error (mk_typck_err_named rust_name typ
        (.TupleError (.WrongElementCount elems.length typs.length)))
  | _ => .error (mk_typck_err_named rust_name typ (.TupleError .NotTuple))

/-! ### The legacy adapter -/

/-- Base-256 value of a big-endian byte list. -/
def beVal (bytes : List Nat) : Nat :=
  bytes.foldl (fun acc b => acc * 256 + b) 0

/-- `i32::from_be_bytes`: two's-complement reading of 4 big-endian bytes. -/
def i32FromBeBytes (bytes : List Nat) : Int :=
  let u := beVal bytes
  if u < 2147483648 then (u : Int) else (u : Int) - 4294967296

/-- `serialize_legacy_value` from `value.rs`.  The legacy `Value::serialize`
run is represented by its observable outcome: `.error ()` when it reported
`ValueTooBig`, otherwise the scratch buffer it produced.  The adapter
parses the buffer's 4-byte big-endian length prefix and forwards the
corresponding cell-writer outcome. -/
def serialize_legacy_value (buf : Except Unit (List Nat)) : SerResult :=
  match buf with
  | .error _ => .error (.legacyAdapter .TooBig)
  | .ok buf =>
    if buf.length < 4 then .error (.legacyAdapter (.TooShort buf.length))
    else
      let contents := buf.drop 4
      let len := i32FromBeBytes (buf.take 4)
      if len = -2 then .ok unsetCell
      else if len = -1 then .ok nullCell
      else if 0 ≤ len then
        if contents.length ≠ len.toNat then
          .error (.legacyAdapter (.DeclaredVsActualSizeMismatch len.toNat contents.length))
        else .ok (cellOf contents)
      else .error (.legacyAdapter (.InvalidDeclaredSize len))

/-! ### The scalar serializers, collected for the whitelist property

`ScalarVal` enumerates the built-in scalar `SerializeCql` impls together
with a value of the corresponding Rust type; `serializeScalar` dispatches
to the impl's serializer, `scalarWhitelist` is the `expected` slice of its
`exact_type_check!` invocation and `scalarRustName` its Rust type name. -/

inductive ScalarVal where
  | vI8 (v : Int)
  | vI16 (v : Int)
  | vI32 (v : Int)
  | vI64 (v : Int)
  | vBigDecimal (unscaled scale : Int)
  | vCqlDate (d : Nat)
  | vCqlTimestamp (t : Int)
  | vCqlTime (t : Int)
  | vBool (b : Bool)
  | vF32 (bits : Nat)
  | vF64 (bits : Nat)
  | vUuid (bytes : List Nat)
  | vVarint (n : Int)
  | vStr (s : String)
  | vString (s : String)
  | vBlob (bytes : List Nat)
  | vIpAddr (octets : List Nat)
  | vCounter (c : Int)
  | vCqlDuration (months days : Int) (nanoseconds : Int)

/-- Dispatch to the scalar serializer of the value's Rust type. -/
def serializeScalar : ScalarVal → ColumnType → SerResult
  | .vI8 v, typ => serialize_i8 v typ
  | .vI16 v, typ => serialize_i16 v typ
  | .vI32 v, typ => serialize_i32 v typ
  | .vI64 v, typ => serialize_i64 v typ
  | .vBigDecimal u s, typ => serialize_BigDecimal u s typ
  | .vCqlDate d, typ => serialize_CqlDate d typ
  | .vCqlTimestamp t, typ => serialize_CqlTimestamp t typ
  | .vCqlTime t, typ => serialize_CqlTime t typ
  | .vBool b, typ => serialize_bool b typ
  | .vF32 bits, typ => serialize_f32 bits typ
  | .vF64 bits, typ => serialize_f64 bits typ
  | .vUuid bytes, typ => serialize_Uuid bytes typ
  | .vVarint n, typ => serialize_BigInt n typ
  | .vStr s, typ => serialize_str s typ
  | .vString s, typ => serialize_String s typ
  | .vBlob bytes, typ => serialize_Vec_u8 bytes typ
  | .vIpAddr octets, typ => serialize_IpAddr octets typ
  | .vCounter c, typ => serialize_Counter c typ
  | .vCqlDuration mo d ns, typ => serialize_CqlDuration mo d ns typ

/-- The `expected` whitelist of each scalar impl's `exact_type_check!`. -/
def scalarWhitelist : ScalarVal → List ColumnType
  | .vI8 _ => [.TinyInt]
  | .vI16 _ => [.SmallInt]
  | .vI32 _ => [.Int]
  | .vI64 _ => [.BigInt]
  | .vBigDecimal _ _ => [.Decimal]
  | .vCqlDate _ => [.Date]
  | .vCqlTimestamp _ => [.Timestamp]
  | .vCqlTime _ => [.Time]
  | .vBool _ => [.Boolean]
  | .vF32 _ => [.Float]
  | .vF64 _ => [.Double]
  | .vUuid _ => [.Uuid, .Timeuuid]
  | .vVarint _ => [.Varint]
  | .vStr _ => [.Ascii, .Text]
  | .vString _ => [.Ascii, .Text]
  | .vBlob _ => [.Blob]
  | .vIpAddr _ => [.Inet]
  | .vCounter _ => [.Counter]
  | .vCqlDuration _ _ _ => [.Duration]

/-- Spec-side description of the UDT field loop, written from the spec's
words for comparison with `serialize_udt`: "for every descriptor field, in
declared order, look up the value's field by name: absent ⇒ emit null;
present ⇒ recursively serialize, wrapping any failure with the field
name".  Unlike the source loop it performs no removal — every lookup is
against the full original value list. -/
def udtCellsSpec (typ : ColumnType) (values : List (String × Option CqlValue)) :
    List (String × ColumnType) → SerResult
  | [] => .ok []
  | (fname, ftyp) :: rest =>
    match (lookupLast values fname).bind id with
    | none =>
      match udtCellsSpec typ values rest with
      | .error e => .error e
      | .ok tail => .ok (nullCell ++ tail)
    | some v =>
      match serialize_cql_value v ftyp with
      | .error err =>
        .error (mk_ser_err_named "CqlValue" typ
          (.UdtError (.FieldSerializationFailed fname (fix_cql_value_name_in_err err))))
      | .ok c =>
        match udtCellsSpec typ values rest with
        | .error e => .error e
        | .ok tail => .ok (c ++ tail)

/-- Observational equivalence of two association lists seen as the
`HashMap` of `serialize_udt`: same per-key (last-occurrence) value and the
same key set. -/
def MapEquiv (m1 m2 : List (String × Option CqlValue)) : Prop :=
  (∀ g, lookupLast m1 g = lookupLast m2 g) ∧
  (∀ g, g ∈ m1.map Prod.fst ↔ g ∈ m2.map Prod.fst)

/-- Pointwise relation on UDT field-loop results: equal payloads /
errors, and observationally equivalent leftover maps. -/
def loopEquiv
    (r1 r2 : Except SerializationError (List Nat × List (String × Option CqlValue))) :
    Prop :=
  match r1, r2 with
  | .ok (p1, L1), .ok (p2, L2) => p1 = p2 ∧ MapEquiv L1 L2
  | .error e1, .error e2 => e1 = e2
  | _, _ => False

/-- The Rust type name reported by each scalar impl. -/
def scalarRustName : ScalarVal → String
  | .vI8 _ => "i8"
  | .vI16 _ => "i16"
  | .vI32 _ => "i32"
  | .vI64 _ => "i64"
  | .vBigDecimal _ _ => "BigDecimal"
  | .vCqlDate _ => "CqlDate"
  | .vCqlTimestamp _ => "CqlTimestamp"
  | .vCqlTime _ => "CqlTime"
  | .vBool _ => "bool"
  | .vF32 _ => "f32"
  | .vF64 _ => "f64"
  | .vUuid _ => "Uuid"
  | .vVarint _ => "BigInt"
  | .vStr _ => "&str"
  | .vString _ => "String"
  | .vBlob _ => "Vec<u8>"
  | .vIpAddr _ => "IpAddr"
  | .vCounter _ => "Counter"
  | .vCqlDuration _ _ _ => "CqlDuration"

/-! ## Supporting lemmas -/

theorem beBytes_length (w : Nat) : ∀ n : Nat, (beBytes w n).length = w := by
  induction w with
  | zero => intro n; rfl
  | succ w ih => intro n; simp [beBytes, ih]

theorem be32_length (n : Int) : (be32 n).length = 4 :=
  beBytes_length 4 _

theorem beVal_append_one (xs : List Nat) (b : Nat) :
    beVal (xs ++ [b]) = beVal xs * 256 + b := by
  simp [beVal, List.foldl_append]

theorem beVal_beBytes (w : Nat) : ∀ n : Nat, n < 256 ^ w → beVal (beBytes w n) = n := by
  induction w with
  | zero =>
    intro n h
    norm_num at h
    subst h
    rfl
  | succ w ih =>
    intro n h
    have hp : (256 : Nat) ^ (w + 1) = 256 ^ w * 256 := pow_succ 256 w
    rw [hp] at h
    have hd : n / 256 < 256 ^ w := by omega
    rw [beBytes, beVal_append_one, ih (n / 256) hd]
    omega

theorem i32FromBe_be32 (n : Int) (h1 : -2147483648 ≤ n) (h2 : n < 2147483648) :
    i32FromBeBytes (be32 n) = n := by
  have hm : (0 : Int) ≤ n.emod 4294967296 := Int.emod_nonneg n (by norm_num)
  have hm2 : n.emod 4294967296 < 4294967296 := Int.emod_lt_of_pos n (by norm_num)
  simp only [i32FromBeBytes, be32]
  rw [beVal_beBytes 4 (n.emod 4294967296).toNat (by norm_num; omega)]
  have hme : n.emod 4294967296 = n % 4294967296 := rfl
  split <;> omega

/-! ## Claim C6: `Vec<i32>` against `List(Int)`, exact bytes -/

/-- C6: serializing the sequence `[1, 2, 3]` of 32-bit integers against a
`List(Int)` descriptor produces the cell whose payload is exactly the
4-byte big-endian element count `00 00 00 03` followed by three 8-byte
sub-cells, each the 4-byte big-endian length `00 00 00 04` followed by the
element's 4-byte big-endian value (the payload is framed once more by the
cell's own length prefix `00 00 00 1c`, as every cell is). -/
theorem list_int_sequence_bytes :
    serialize_Vec_i32 [1, 2, 3] (.List .Int) =
      .ok (cellOf ([0, 0, 0, 3] ++
        ([0, 0, 0, 4] ++ [0, 0, 0, 1]) ++
        ([0, 0, 0, 4] ++ [0, 0, 0, 2]) ++
        ([0, 0, 0, 4] ++ [0, 0, 0, 3]))) := by
  rfl

/-! ## Claim C7: `None` ⇒ null cell, `Unset` ⇒ unset cell, for every
descriptor -/

/-- C7: for every descriptor, serializing `None` produces the null cell
(length field `-1`) and serializing `Unset` produces the unset cell
(length field `-2`); neither consults the descriptor (the result is the
same for every `typ`, including ones the inner serializer would reject). -/
theorem none_null_unset_descriptor_independent :
    ∀ typ : ColumnType,
      (∀ (α : Type) (ser : α → ColumnType → SerResult),
        serialize_Option ser none typ = .ok nullCell) ∧
      serialize_Unset typ = .ok unsetCell ∧
      nullCell = be32 (-1) ∧ unsetCell = be32 (-2) := by
  intro typ
  exact ⟨fun α ser => rfl, rfl, rfl, rfl⟩

/-! ## Claim C8: element-count overflow fails before any element -/

/-- C8: for every sequence value whose element count exceeds `i32::MAX`,
`serialize_sequence` against a `List` or `Set` descriptor fails with the
`TooManyElements` serialization error.  The conclusion holds for *every*
element serializer `ser`, so no element is serialized and (in this pure
model, where only a successful serializer produces bytes) no element bytes
nor the count prefix are emitted before the failure. -/
theorem sequence_count_overflow_fails_early {α : Type}
    (rust_name : String) (ser : α → ColumnType → SerResult)
    (l : List α) (elt typ : ColumnType)
    (htyp : typ = .List elt ∨ typ = .Set elt)
    (hlen : i32Max < l.length) :
    serialize_sequence rust_name ser l typ =
      .error (mk_ser_err_named rust_name typ (.SetOrListError .TooManyElements)) := by
  rcases htyp with h | h <;> subst h <;>
    simp [serialize_sequence, Nat.not_le_of_lt hlen]

/-- Witness for C8: a `2^31`-element list of `i32`s overflows. -/
theorem sequence_count_overflow_fails_early_witness :
    i32Max < (List.replicate (2 ^ 31) (0 : Int)).length ∧
    serialize_sequence "Vec<i32>" serialize_i32 (List.replicate (2 ^ 31) (0 : Int))
        (.List .Int) =
      .error (mk_ser_err_named "Vec<i32>" (.List .Int)
        (.SetOrListError .TooManyElements)) := by
  have h : i32Max < (List.replicate (2 ^ 31) (0 : Int)).length := by
    rw [List.length_replicate]
    norm_num [i32Max]
  exact ⟨h, sequence_count_overflow_fails_early "Vec<i32>" serialize_i32 _ .Int _
    (Or.inl rfl) h⟩

/-! ## Claim C9: the legacy adapter -/

theorem serialize_legacy_value_parse (n : Int) (contents : List Nat)
    (h1 : -2147483648 ≤ n) (h2 : n < 2147483648) :
    serialize_legacy_value (.ok (be32 n ++ contents)) =
      (if n = -2 then .ok unsetCell
       else if n = -1 then .ok nullCell
       else if 0 ≤ n then
         if contents.length ≠ n.toNat then
           .error (.legacyAdapter (.DeclaredVsActualSizeMismatch n.toNat contents.length))
         else .ok (cellOf contents)
       else .error (.legacyAdapter (.InvalidDeclaredSize n))) := by
  have hlen : (be32 n ++ contents).length = 4 + contents.length := by
    rw [List.length_append, be32_length]
  have ht : (be32 n ++ contents).take 4 = be32 n := List.take_left' (be32_length n)
  have hd : (be32 n ++ contents).drop 4 = contents := List.drop_left' (be32_length n)
  simp only [serialize_legacy_value]
  rw [if_neg (by omega), ht, hd, i32FromBe_be32 n h1 h2]

/-- C9: the legacy adapter dispatches on the 4-byte big-endian length
prefix of the buffer the legacy serializer produced: `-2` ⇒ unset cell,
`-1` ⇒ null cell, `n ≥ 0` ⇒ a value cell with the remaining bytes when
exactly `n` bytes follow and a declared-vs-actual mismatch error
otherwise, a prefix below `-2` ⇒ invalid-declared-size error, a buffer
shorter than 4 bytes ⇒ too-short error (and a `ValueTooBig` report from
the legacy serializer ⇒ too-big error). -/
theorem legacy_adapter_dispatch (n : Int) (contents : List Nat) :
    (serialize_legacy_value (.ok (be32 (-2) ++ contents)) = .ok unsetCell) ∧
    (serialize_legacy_value (.ok (be32 (-1) ++ contents)) = .ok nullCell) ∧
    (0 ≤ n → n < 2147483648 → n = contents.length →
      serialize_legacy_value (.ok (be32 n ++ contents)) = .ok (cellOf contents)) ∧
    (0 ≤ n → n < 2147483648 → n ≠ contents.length →
      serialize_legacy_value (.ok (be32 n ++ contents)) =
        .error (.legacyAdapter (.DeclaredVsActualSizeMismatch n.toNat contents.length))) ∧
    (-2147483648 ≤ n → n < -2 →
      serialize_legacy_value (.ok (be32 n ++ contents)) =
        .error (.legacyAdapter (.InvalidDeclaredSize n))) ∧
    (∀ buf : List Nat, buf.length < 4 →
      serialize_legacy_value (.ok buf) = .error (.legacyAdapter (.TooShort buf.length))) ∧
    (serialize_legacy_value (.error ()) = .error (.legacyAdapter .TooBig)) := by
  refine ⟨?_, ?_, ?_, ?_, ?_, ?_, rfl⟩
  · rw [serialize_legacy_value_parse (-2) contents (by norm_num) (by norm_num)]
    norm_num
  · rw [serialize_legacy_value_parse (-1) contents (by norm_num) (by norm_num)]
    norm_num
  · intro hn0 hn2 hnc
    rw [serialize_legacy_value_parse n contents (by omega) hn2]
    rw [if_neg (by omega), if_neg (by omega), if_pos hn0, if_neg (by omega)]
  · intro hn0 hn2 hnc
    rw [serialize_legacy_value_parse n contents (by omega) hn2]
    rw [if_neg (by omega), if_neg (by omega), if_pos hn0, if_pos (by omega)]
  · intro hn1 hn2
    rw [serialize_legacy_value_parse n contents hn1 (by omega)]
    rw [if_neg (by omega), if_neg (by omega), if_neg (by omega)]
  · intro buf hbuf
    simp [serialize_legacy_value, hbuf]

/-- Witness for C9: prefix `2` followed by a single byte is a size
mismatch (declared 2, actual 1). -/
theorem legacy_adapter_dispatch_witness :
    serialize_legacy_value (.ok (be32 2 ++ [7])) =
      .error (.legacyAdapter (.DeclaredVsActualSizeMismatch 2 1)) := by
  have h := (legacy_adapter_dispatch 2 [7]).2.2.2.1 (by norm_num) (by norm_num)
    (by norm_num)
  simpa using h

/-! ## Claim C5: scalar whitelists -/

/-- C5: for every scalar value `v` and every descriptor `d` outside the
fixed whitelist of `v`'s serializer (`{Ascii, Text}` for strings,
`{Uuid, Timeuuid}` for UUIDs, exactly one kind for each fixed-width
integer, ...), serialization fails with a `MismatchedType` type-check
error whose `expected` set is exactly that whitelist.  The type check is
the first step of every scalar serializer, so a failing serializer emits
no bytes. -/
theorem scalar_whitelist_mismatch_error (v : ScalarVal) (d : ColumnType)
    (h : d ∉ scalarWhitelist v) :
    serializeScalar v d =
      .error (mk_typck_err_named (scalarRustName v) d
        (.MismatchedType (scalarWhitelist v))) := by
  cases v <;> cases d <;>
    simp_all [serializeScalar, scalarWhitelist, scalarRustName, serialize_i8, serialize_i16,
      serialize_i32, serialize_i64, serialize_BigDecimal, serialize_CqlDate,
      serialize_CqlTimestamp, serialize_CqlTime, serialize_bool, serialize_f32, serialize_f64,
      serialize_Uuid, serialize_BigInt, serialize_str, serialize_String, serialize_Vec_u8,
      serialize_IpAddr, serialize_Counter, serialize_CqlDuration, mk_typck_err_named]

/-- Witness for C5: an `i32` against a `Text` descriptor. -/
theorem scalar_whitelist_mismatch_error_witness :
    ColumnType.Text ∉ scalarWhitelist (.vI32 7) ∧
    serializeScalar (.vI32 7) .Text =
      .error (mk_typck_err_named "i32" .Text (.MismatchedType [.Int])) := by
  refine ⟨by simp [scalarWhitelist], ?_⟩
  have h := scalar_whitelist_mismatch_error (.vI32 7) .Text (by simp [scalarWhitelist])
  simpa [scalarRustName, scalarWhitelist] using h

/-! ## Claim C4: fixed-arity Rust tuples (corrected) -/

/-- Counterexample to C4 as stated: a 1-element Rust tuple `(123i32,)`
type-checked against a `Tuple[Int, Int]` descriptor (declared arity 2 ≥
value arity 1) does **not** succeed — the `impl_tuple` slice pattern
`[t0, ..., tn]` requires the declared arity to equal the Rust arity, so
the call fails with `WrongElementCount { actual: 1, asked_for: 2 }`. -/
theorem fixed_tuple_ge_arity_counterexample :
    serializeFixedTuple "(i32,)" [serialize_i32 123] (.Tuple [.Int, .Int]) =
      .error (mk_typck_err_named "(i32,)" (.Tuple [.Int, .Int])
        (.TupleError (.WrongElementCount 1 2))) ∧
    ∀ bytes, serializeFixedTuple "(i32,)" [serialize_i32 123] (.Tuple [.Int, .Int]) ≠
      .ok bytes := by
  refine ⟨rfl, fun bytes h => ?_⟩
  rw [show serializeFixedTuple "(i32,)" [serialize_i32 123] (.Tuple [.Int, .Int]) =
    .error (mk_typck_err_named "(i32,)" (.Tuple [.Int, .Int])
      (.TupleError (.WrongElementCount 1 2))) from rfl] at h
  exact Except.noConfusion h

/-- C4 (amended): for every fixed-arity Rust tuple (arity 1 to 16),
type-checking succeeds only against a `Tuple` descriptor whose declared
arity *equals* the value's arity; whenever the declared arity differs
(smaller or larger), it fails with a `WrongElementCount` type-check error
reporting the value's arity and the declared arity. -/
theorem fixed_tuple_exact_arity_required (rust_name : String)
    (elems : List (ColumnType → SerResult)) (typs : List ColumnType)
    (har1 : 1 ≤ elems.length) (har2 : elems.length ≤ 16) :
    (typs.length ≠ elems.length →
      serializeFixedTuple rust_name elems (.Tuple typs) =
        .error (mk_typck_err_named rust_name (.Tuple typs)
          (.TupleError (.WrongElementCount elems.length typs.length)))) ∧
    (typs.length = elems.length →
      serializeFixedTuple rust_name elems (.Tuple typs) =
        (match fixedTupleElems rust_name (.Tuple typs) elems typs 0 with
         | .error e => .error e
         | .ok payload =>
           match finishBuilder payload with
           | some c => .ok c
           | none => .error (mk_ser_err_named rust_name (.Tuple typs) .SizeOverflow))) := by
  constructor <;> intro h <;> simp [serializeFixedTuple, h]

/-- Witness for C4 (amended): arity 1 against declared arity 2. -/
theorem fixed_tuple_exact_arity_required_witness :
    serializeFixedTuple "(i32,)" [serialize_i32 123] (.Tuple [.Int, .Int]) =
      .error (mk_typck_err_named "(i32,)" (.Tuple [.Int, .Int])
        (.TupleError (.WrongElementCount 1 2))) := by
  have h := (fixed_tuple_exact_arity_required "(i32,)" [serialize_i32 123] [.Int, .Int]
    (by norm_num) (by norm_num)).1 (by norm_num)
  simpa using h

/-! ## Claim C3: dynamic-value tuples (corrected) -/

theorem serializeTupleElems_take (typ : ColumnType) :
    ∀ (vals : List (Option CqlValue)) (fts : List ColumnType) (index : Nat),
      serializeTupleElems typ fts vals index =
        serializeTupleElems typ (fts.take vals.length) vals index := by
  intro vals
  induction vals with
  | nil => intro fts index; cases fts <;> simp [serializeTupleElems]
  | cons el vrest ih =>
    intro fts index
    cases fts with
    | nil => simp [serializeTupleElems]
    | cons t trest =>
      simp only [List.length_cons, List.take_succ_cons]
      cases el <;> simp only [serializeTupleElems] <;> rw [ih]

/-- Counterexample to C3 as stated: a dynamic tuple with one element
against a two-element `Tuple` descriptor succeeds, but the missing
trailing element is **not** padded as a null sub-cell — the payload
contains only the one present sub-cell (8 bytes framed as a 12-byte cell),
not the 12-byte payload with an appended null cell (16 bytes total) the
claim requires. -/
theorem tuple_no_null_padding_counterexample :
    serialize_cql_value (.Tuple [some (.Int 1)]) (.Tuple [.Int, .Int]) =
      .ok [0, 0, 0, 8, 0, 0, 0, 4, 0, 0, 0, 1] ∧
    cellOf (cellOf (twosComp 4 1) ++ nullCell) =
      [0, 0, 0, 12, 0, 0, 0, 4, 0, 0, 0, 1, 255, 255, 255, 255] ∧
    ([0, 0, 0, 8, 0, 0, 0, 4, 0, 0, 0, 1] : List Nat) ≠
      [0, 0, 0, 12, 0, 0, 0, 4, 0, 0, 0, 1, 255, 255, 255, 255] := by
  refine ⟨?_, by decide, by decide⟩
  simp [serialize_cql_value, serialize_tuple_like, serializeTupleElems, serialize_i32,
    ColumnType.isCustom, finishBuilder, i32Max, cellOf, twosComp, be32, beBytes]
  decide

/-- C3 (amended): a dynamic-value tuple with more elements than the
descriptor declares fails with a `WrongElementCount` type-check error
reporting the value's and the descriptor's element counts; with
fewer-or-equal elements it proceeds to `serialize_tuple_like`, whose
element loop consumes only the `zip` of values with descriptor types —
present elements are framed (a `none` element as a null sub-cell) and the
missing trailing elements are omitted entirely (no sub-cells are emitted
for them; only the first `t.length` descriptor element types partake). -/
theorem tuple_fewer_truncates_more_errors (t : List (Option CqlValue))
    (fields : List ColumnType) (typ : ColumnType) (htyp : typ = .Tuple fields) :
    (fields.length < t.length →
      serialize_cql_value (.Tuple t) typ =
        .error (mk_typck_err_named "CqlValue" typ
          (.TupleError (.WrongElementCount t.length fields.length)))) ∧
    (t.length ≤ fields.length →
      serialize_cql_value (.Tuple t) typ = serialize_tuple_like typ fields t ∧
      serializeTupleElems typ fields t 0 =
        serializeTupleElems typ (fields.take t.length) t 0) := by
  subst htyp
  constructor
  · intro h
    simp [serialize_cql_value, ColumnType.isCustom, h]
  · intro h
    refine ⟨?_, serializeTupleElems_take _ t fields 0⟩
    simp [serialize_cql_value, ColumnType.isCustom, Nat.not_lt_of_le h]

/-- Witness for C3 (amended): one element against declared arity two. -/
theorem tuple_fewer_truncates_more_errors_witness :
    serialize_cql_value (.Tuple [some (.Int 1)]) (.Tuple [.Int, .Int]) =
      serialize_tuple_like (.Tuple [.Int, .Int]) [.Int, .Int] [some (.Int 1)] ∧
    serializeTupleElems (.Tuple [.Int, .Int]) [.Int, .Int] [some (.Int 1)] 0 =
      serializeTupleElems (.Tuple [.Int, .Int]) [.Int] [some (.Int 1)] 0 := by
  have h := (tuple_fewer_truncates_more_errors [some (.Int 1)] [.Int, .Int]
    (.Tuple [.Int, .Int]) rfl).2 (by norm_num)
  simpa using h

/-! ## Association-list (`HashMap` model) lemmas -/

theorem lookupLast_cons {α : Type} (k1 : String) (v1 : α) (rest : List (String × α))
    (g : String) :
    lookupLast ((k1, v1) :: rest) g =
      match lookupLast rest g with
      | some r => some r
      | none => if k1 = g then some v1 else none := rfl

theorem lookupLast_eraseKey_ne {α : Type} (m : List (String × α)) (k g : String)
    (h : g ≠ k) : lookupLast (eraseKey m k) g = lookupLast m g := by
  induction m with
  | nil => rfl
  | cons e rest ih =>
    obtain ⟨k1, v1⟩ := e
    by_cases hk1 : k1 = k
    · have hdrop : eraseKey ((k1, v1) :: rest) k = eraseKey rest k := by
        simp [eraseKey, List.filter_cons, hk1]
      rw [hdrop, ih, lookupLast_cons]
      cases hr : lookupLast rest g
      · rw [hk1, if_neg (fun hh => h hh.symm)]
      · rfl
    · have hkeep : eraseKey ((k1, v1) :: rest) k = (k1, v1) :: eraseKey rest k := by
        simp [eraseKey, List.filter_cons, hk1]
      rw [hkeep, lookupLast_cons, lookupLast_cons, ih]

theorem lookupLast_eraseKey_self {α : Type} (m : List (String × α)) (k : String) :
    lookupLast (eraseKey m k) k = none := by
  induction m with
  | nil => rfl
  | cons e rest ih =>
    obtain ⟨k1, v1⟩ := e
    rw [eraseKey, List.filter_cons]
    by_cases hk1 : k1 = k
    · rw [if_neg (by simp [hk1])]
      exact ih
    · rw [if_pos (by simp [hk1]), lookupLast]
      rw [show List.filter (fun e => decide (e.1 ≠ k)) rest = eraseKey rest k from rfl, ih]
      simp [hk1]

theorem mem_keys_eraseKey {α : Type} (m : List (String × α)) (k g : String) :
    g ∈ (eraseKey m k).map Prod.fst ↔ g ∈ m.map Prod.fst ∧ g ≠ k := by
  simp only [eraseKey, List.mem_map, List.mem_filter]
  constructor
  · rintro ⟨e, ⟨hm, hd⟩, he⟩
    subst he
    simp only [decide_eq_true_eq] at hd
    exact ⟨⟨e, hm, rfl⟩, hd⟩
  · rintro ⟨⟨e, hm, he⟩, hg⟩
    subst he
    exact ⟨e, ⟨hm, by simpa using hg⟩, rfl⟩

theorem lookupLast_isSome_of_mem {α : Type} (m : List (String × α)) (g : String)
    (h : g ∈ m.map Prod.fst) : (lookupLast m g).isSome := by
  induction m with
  | nil => simp at h
  | cons e rest ih =>
    obtain ⟨k1, v1⟩ := e
    rw [lookupLast]
    cases hr : lookupLast rest g
    · simp only [List.map_cons, List.mem_cons] at h
      rcases h with h | h
      · simp [h.symm]
      · have := ih h
        rw [hr] at this
        simp at this
    · simp

theorem lookupLast_append_right {α : Type} (xs ys : List (String × α)) (g : String)
    (v : α) (h : lookupLast ys g = some v) :
    lookupLast (xs ++ ys) g = some v := by
  induction xs with
  | nil => simpa using h
  | cons e rest ih =>
    rw [List.cons_append, lookupLast, ih]

theorem lookupLast_append_left {α : Type} (xs ys : List (String × α)) (g : String)
    (h : lookupLast ys g = none) :
    lookupLast (xs ++ ys) g = lookupLast xs g := by
  induction xs with
  | nil => simpa using h
  | cons e rest ih =>
    obtain ⟨k1, v1⟩ := e
    rw [List.cons_append, lookupLast, ih, lookupLast]

theorem minKey_eq_none_iff {α : Type} (m : List (String × α)) :
    minKey m = none ↔ m = [] := by
  cases m with
  | nil => simp [minKey]
  | cons e rest =>
    obtain ⟨k1, v1⟩ := e
    simp only [minKey]
    constructor
    · intro h
      exfalso
      cases hr : minKey rest with
      | none => simp only [hr] at h; exact Option.noConfusion h
      | some b =>
        simp only [hr] at h
        by_cases hlt : k1 < b
        · rw [if_pos hlt] at h; exact Option.noConfusion h
        · rw [if_neg hlt] at h; exact Option.noConfusion h
    · intro h
      exact absurd h (by simp)

theorem minKey_mem {α : Type} (m : List (String × α)) (k : String)
    (h : minKey m = some k) : k ∈ m.map Prod.fst := by
  induction m generalizing k with
  | nil => simp [minKey] at h
  | cons e rest ih =>
    obtain ⟨k1, v1⟩ := e
    rw [minKey] at h
    cases hr : minKey rest with
    | none => simp only [hr] at h; simp at h; simp [h]
    | some b =>
      simp only [hr] at h
      by_cases hlt : k1 < b
      · rw [if_pos hlt] at h
        simp at h
        simp [h]
      · rw [if_neg hlt] at h
        simp at h
        subst h
        simp [ih b hr]

theorem minKey_le {α : Type} (m : List (String × α)) (k : String)
    (h : minKey m = some k) : ∀ g ∈ m.map Prod.fst, k ≤ g := by
  induction m generalizing k with
  | nil => simp
  | cons e rest ih =>
    obtain ⟨k1, v1⟩ := e
    rw [minKey] at h
    intro g hg
    simp only [List.map_cons, List.mem_cons] at hg
    cases hr : minKey rest with
    | none =>
      simp only [hr] at h
      simp only [Option.some.injEq] at h
      subst h
      rcases hg with hg | hg
      · exact le_of_eq hg.symm
      · exact absurd hg (by simp [(minKey_eq_none_iff rest).mp hr])
    | some b =>
      simp only [hr] at h
      have hble := ih b hr
      by_cases hlt : k1 < b
      · rw [if_pos hlt] at h
        simp only [Option.some.injEq] at h
        subst h
        rcases hg with hg | hg
        · exact le_of_eq hg.symm
        · exact le_trans (le_of_lt hlt) (hble g hg)
      · rw [if_neg hlt] at h
        simp only [Option.some.injEq] at h
        subst h
        rcases hg with hg | hg
        · exact hg ▸ le_of_not_lt hlt
        · exact hble g hg

theorem minKey_congr (m1 m2 : List (String × Option CqlValue))
    (h : ∀ g, g ∈ m1.map Prod.fst ↔ g ∈ m2.map Prod.fst) :
    minKey m1 = minKey m2 := by
  cases h1 : minKey m1 with
  | none =>
    rw [minKey_eq_none_iff] at h1
    subst h1
    cases h2 : minKey m2 with
    | none => rfl
    | some b =>
      have := minKey_mem m2 b h2
      rw [← h b] at this
      simp at this
  | some a =>
    cases h2 : minKey m2 with
    | none =>
      rw [minKey_eq_none_iff] at h2
      subst h2
      have := minKey_mem m1 a h1
      rw [h a] at this
      simp at this
    | some b =>
      have ha2 : a ∈ m2.map Prod.fst := (h a).mp (minKey_mem m1 a h1)
      have hb1 : b ∈ m1.map Prod.fst := (h b).mpr (minKey_mem m2 b h2)
      have hab : a ≤ b := minKey_le m1 a h1 b hb1
      have hba : b ≤ a := minKey_le m2 b h2 a ha2
      rw [le_antisymm hab hba]

theorem filter_eraseKey_notmem {α : Type} (values : List (String × α)) (fname : String)
    (names : List String) :
    (eraseKey values fname).filter (fun e => decide (e.1 ∉ names)) =
      values.filter (fun e => decide (e.1 ∉ fname :: names)) := by
  unfold eraseKey
  rw [List.filter_filter]
  apply List.filter_congr
  intro a _
  by_cases h1 : a.1 = fname <;> by_cases h2 : a.1 ∈ names <;> simp [h1, h2]

/-! ## The UDT field loop against its spec-side description -/

theorem udtCellsSpec_congr (typ : ColumnType)
    (v1 v2 : List (String × Option CqlValue)) :
    ∀ fts : List (String × ColumnType),
      (∀ g ∈ fts.map Prod.fst, lookupLast v1 g = lookupLast v2 g) →
      udtCellsSpec typ v1 fts = udtCellsSpec typ v2 fts := by
  intro fts
  induction fts with
  | nil => intro _; rfl
  | cons e rest ih =>
    obtain ⟨fname, ftyp⟩ := e
    intro h
    have hf : lookupLast v1 fname = lookupLast v2 fname := h fname (by simp)
    have hrest := ih (fun g hg => h g (by simp [hg]))
    simp only [udtCellsSpec, hf, hrest]

/-- The field loop of `serialize_udt`, on a descriptor with `Nodup` field
names, is exactly the spec-side per-field map (removal never disturbs a
later lookup), and its leftover map is the value fields whose names match
no descriptor field. -/
theorem serializeUdtFields_eq_spec (typ : ColumnType) :
    ∀ (fts : List (String × ColumnType)) (values : List (String × Option CqlValue)),
      (fts.map Prod.fst).Nodup →
      serializeUdtFields typ fts values =
        (match udtCellsSpec typ values fts with
         | .error e => .error e
         | .ok payload =>
           .ok (payload, values.filter (fun e => decide (e.1 ∉ fts.map Prod.fst)))) := by
  intro fts
  induction fts with
  | nil =>
    intro values _
    simp [serializeUdtFields, udtCellsSpec]
  | cons e rest ih =>
    obtain ⟨fname, ftyp⟩ := e
    intro values hnd
    simp only [List.map_cons, List.nodup_cons] at hnd
    obtain ⟨hf, hrest⟩ := hnd
    have hcong : udtCellsSpec typ (eraseKey values fname) rest =
        udtCellsSpec typ values rest :=
      udtCellsSpec_congr typ _ _ rest (fun g hg =>
        lookupLast_eraseKey_ne values fname g (fun hgf => hf (hgf ▸ hg)))
    have hfilter := filter_eraseKey_notmem values fname (rest.map Prod.fst)
    simp only [serializeUdtFields, udtCellsSpec]
    cases hfv : (lookupLast values fname).bind id with
    | none =>
      simp only [hfv]
      rw [ih (eraseKey values fname) hrest, hcong]
      cases hs : udtCellsSpec typ values rest with
      | error e => simp
      | ok tail => simp; simpa using hfilter
    | some v =>
      simp only [hfv]
      cases hser : serialize_cql_value v ftyp with
      | error err => simp
      | ok c =>
        rw [ih (eraseKey values fname) hrest, hcong]
        cases hs : udtCellsSpec typ values rest with
        | error e => simp
        | ok tail => simp; simpa using hfilter

/-- On success, the leftover map of the field loop is exactly the value
fields whose names match no descriptor field (no `Nodup` assumption). -/
theorem serializeUdtFields_leftover (typ : ColumnType) :
    ∀ (fts : List (String × ColumnType)) (values : List (String × Option CqlValue))
      (payload : List Nat) (L : List (String × Option CqlValue)),
      serializeUdtFields typ fts values = .ok (payload, L) →
      L = values.filter (fun e => decide (e.1 ∉ fts.map Prod.fst)) := by
  intro fts
  induction fts with
  | nil =>
    intro values payload L h
    simp only [serializeUdtFields] at h
    simp only [Except.ok.injEq, Prod.mk.injEq] at h
    simp [← h.2]
  | cons e rest ih =>
    obtain ⟨fname, ftyp⟩ := e
    intro values payload L
    simp only [serializeUdtFields]
    cases hfv : (lookupLast values fname).bind id with
    | none =>
      simp only [hfv]
      cases hrec : serializeUdtFields typ rest (eraseKey values fname) with
      | error e2 => intro h; simp at h
      | ok pr =>
        obtain ⟨tail, L2⟩ := pr
        intro h
        simp only [Except.ok.injEq, Prod.mk.injEq] at h
        rw [← h.2, ih (eraseKey values fname) tail L2 hrec,
          filter_eraseKey_notmem values fname (rest.map Prod.fst)]
        simp
    | some v =>
      simp only [hfv]
      cases hser : serialize_cql_value v ftyp with
      | error err => intro h; simp at h
      | ok c =>
        cases hrec : serializeUdtFields typ rest (eraseKey values fname) with
        | error e2 => intro h; simp at h
        | ok pr =>
          obtain ⟨tail, L2⟩ := pr
          intro h
          simp only [Except.ok.injEq, Prod.mk.injEq] at h
          rw [← h.2, ih (eraseKey values fname) tail L2 hrec,
            filter_eraseKey_notmem values fname (rest.map Prod.fst)]
          simp

/-- `serialize_udt`, on a descriptor with `Nodup` field names whose
keyspace and type name match, is the spec-side per-field map followed by
the leftover check and the final framing; when every value field name
appears among the descriptor fields there is no leftover error. -/
theorem serialize_udt_eq_spec_of_nodup (tn ks : String)
    (fts : List (String × ColumnType)) (values : List (String × Option CqlValue))
    (typ : ColumnType) (htyp : typ = .UserDefinedType tn ks fts)
    (hnd : (fts.map Prod.fst).Nodup)
    (hcov : ∀ e ∈ values, e.1 ∈ fts.map Prod.fst) :
    serialize_udt typ ks tn values =
      (match udtCellsSpec typ values fts with
       | .error e => .error e
       | .ok payload =>
         match finishBuilder payload with
         | some c => .ok c
         | none => .error (mk_ser_err_named "CqlValue" typ .SizeOverflow)) := by
  subst htyp
  simp only [serialize_udt]
  rw [if_neg (by simp)]
  rw [serializeUdtFields_eq_spec _ fts values hnd]
  have hfil : values.filter (fun e => decide (e.1 ∉ fts.map Prod.fst)) = [] := by
    rw [List.filter_eq_nil_iff]
    intro e he
    simp [hcov e he]
  cases hs : udtCellsSpec (.UserDefinedType tn ks fts) values fts with
  | error e => simp
  | ok payload =>
    have hfil2 : List.filter (fun e => !decide (e.1 ∈ fts.map Prod.fst)) values = [] := by
      simpa using hfil
    simp [hfil2, minKey]

/-! ## Claim C1: UDT fields processed in declared order, null for absent -/

/-- C1: for a dynamic UDT value whose keyspace and type name match the
descriptor, the serializer processes every descriptor field in declared
order — absent field ⇒ a null sub-cell, present field ⇒ recursive
serialization with failures wrapped with the field name (this per-field
behaviour is `udtCellsSpec`, compared here against `serialize_udt`).  In
particular, for a descriptor with fields `a, b, c` and a value providing
only `a` and `b`, serialization succeeds and emits `c` as null. -/
theorem udt_declared_order_null_absent :
    (∀ (tn ks : String) (fts : List (String × ColumnType))
       (values : List (String × Option CqlValue)) (typ : ColumnType),
       typ = .UserDefinedType tn ks fts →
       (fts.map Prod.fst).Nodup →
       (∀ e ∈ values, e.1 ∈ fts.map Prod.fst) →
       serialize_udt typ ks tn values =
         (match udtCellsSpec typ values fts with
          | .error e => .error e
          | .ok payload =>
            match finishBuilder payload with
            | some c => .ok c
            | none => .error (mk_ser_err_named "CqlValue" typ .SizeOverflow))) ∧
    (∀ (tn ks a b c : String) (ta tb tc : ColumnType) (va vb : CqlValue)
       (ca cb : List Nat),
       a ≠ b → a ≠ c → b ≠ c →
       serialize_cql_value va ta = .ok ca →
       serialize_cql_value vb tb = .ok cb →
       ca.length + cb.length + 4 ≤ i32Max →
       serialize_udt (.UserDefinedType tn ks [(a, ta), (b, tb), (c, tc)]) ks tn
           [(a, some va), (b, some vb)] =
         .ok (cellOf (ca ++ cb ++ nullCell))) := by
  refine ⟨serialize_udt_eq_spec_of_nodup, ?_⟩
  intro tn ks a b c ta tb tc va vb ca cb hab hac hbc hsa hsb hlen
  rw [serialize_udt_eq_spec_of_nodup tn ks [(a, ta), (b, tb), (c, tc)]
    [(a, some va), (b, some vb)] _ rfl
    (by simp [List.nodup_cons, hab, hac, hbc])
    (by
      intro e he
      simp only [List.mem_cons] at he
      rcases he with he | he | he
      · simp [he]
      · simp [he]
      · simp at he)]
  have hla : lookupLast [(a, some va), (b, some vb)] a = some (some va) := by
    simp [lookupLast, Ne.symm hab]
  have hlb : lookupLast [(a, some va), (b, some vb)] b = some (some vb) := by
    simp [lookupLast]
  have hlc : lookupLast [(a, some va), (b, some vb)] c = none := by
    simp [lookupLast, hac, hbc]
  simp only [udtCellsSpec, hla, hlb, hlc, Option.bind, id_eq, hsa, hsb]
  have hn : nullCell.length = 4 := be32_length (-1)
  have hfin : finishBuilder (ca ++ (cb ++ (nullCell ++ []))) =
      some (cellOf (ca ++ (cb ++ (nullCell ++ [])))) := by
    unfold finishBuilder
    rw [if_pos (by simp [hn]; omega)]
  simp only [hfin]
  simp [cellOf, List.append_assoc]

/-- Witness for C1: descriptor `a: Int, b: Boolean, c: Text`, value
providing `a = 5` and `b = true`; `c` is emitted as the null cell. -/
theorem udt_declared_order_null_absent_witness :
    serialize_udt (.UserDefinedType "t" "ks" [("a", .Int), ("b", .Boolean), ("c", .Text)])
        "ks" "t" [("a", some (.Int 5)), ("b", some (.Boolean true))] =
      .ok (cellOf ([0, 0, 0, 4, 0, 0, 0, 5] ++ [0, 0, 0, 1, 1] ++ nullCell)) := by
  have h := udt_declared_order_null_absent.2 "t" "ks" "a" "b" "c" .Int .Boolean .Text
    (.Int 5) (.Boolean true) [0, 0, 0, 4, 0, 0, 0, 5] [0, 0, 0, 1, 1]
    (by decide) (by decide) (by decide)
    (by simp [serialize_cql_value, serialize_i32, ColumnType.isCustom, cellOf, twosComp,
      be32, beBytes]; decide)
    (by simp [serialize_cql_value, serialize_bool, ColumnType.isCustom, cellOf]; decide)
    (by norm_num [i32Max])
  exact h

/-! ## Claim C2: leftover value fields are an error, smallest name
reported -/

/-- C2: when the field loop has consumed all descriptor fields
successfully and the value still contains fields that matched no
descriptor field, `serialize_udt` fails with a `NoSuchFieldInUdt`
type-check error, and the reported field name is the lexicographically
smallest of the unmatched names. -/
theorem udt_leftover_error_lex_smallest (tn ks : String)
    (fts : List (String × ColumnType)) (values : List (String × Option CqlValue))
    (typ : ColumnType) (payload : List Nat)
    (leftover : List (String × Option CqlValue))
    (htyp : typ = .UserDefinedType tn ks fts)
    (hloop : serializeUdtFields typ fts values = .ok (payload, leftover))
    (hne : leftover ≠ []) :
    leftover = values.filter (fun e => decide (e.1 ∉ fts.map Prod.fst)) ∧
    ∃ fname,
      serialize_udt typ ks tn values =
        .error (mk_typck_err_named "CqlValue" typ
          (.UdtError (.NoSuchFieldInUdt fname))) ∧
      fname ∈ leftover.map Prod.fst ∧
      ∀ g ∈ leftover.map Prod.fst, fname ≤ g := by
  subst htyp
  refine ⟨serializeUdtFields_leftover _ fts values payload leftover hloop, ?_⟩
  obtain ⟨fname, hmin⟩ : ∃ f, minKey leftover = some f := by
    cases hmk : minKey leftover with
    | none => exact absurd ((minKey_eq_none_iff leftover).mp hmk) hne
    | some f => exact ⟨f, rfl⟩
  refine ⟨fname, ?_, minKey_mem leftover fname hmin, minKey_le leftover fname hmin⟩
  simp only [serialize_udt]
  rw [if_neg (by simp)]
  rw [hloop]
  simp [hmin]

/-- Witness for C2: descriptor field `a` only, value fields `a, z, x`;
the unmatched fields are `z` and `x` and the reported one is `x`. -/
theorem udt_leftover_error_lex_smallest_witness :
    ∃ fname,
      serialize_udt (.UserDefinedType "t" "ks" [("a", .Int)]) "ks" "t"
          [("a", some (.Int 5)), ("z", none), ("x", none)] =
        .error (mk_typck_err_named "CqlValue" (.UserDefinedType "t" "ks" [("a", .Int)])
          (.UdtError (.NoSuchFieldInUdt fname))) ∧
      fname ∈ [("z", (none : Option CqlValue)), ("x", none)].map Prod.fst ∧
      ∀ g ∈ [("z", (none : Option CqlValue)), ("x", none)].map Prod.fst, fname ≤ g := by
  refine (udt_leftover_error_lex_smallest "t" "ks" [("a", .Int)]
    [("a", some (.Int 5)), ("z", none), ("x", none)]
    (.UserDefinedType "t" "ks" [("a", .Int)])
    (cellOf (twosComp 4 5) ++ []) [("z", none), ("x", none)] rfl ?_ (by simp)).2
  simp [serializeUdtFields, lookupLast, eraseKey, serialize_cql_value, serialize_i32,
    ColumnType.isCustom]

/-! ## Claim C10: duplicate value field names — last occurrence wins -/

theorem eraseKey_equiv (m1 m2 : List (String × Option CqlValue)) (k : String)
    (h : MapEquiv m1 m2) : MapEquiv (eraseKey m1 k) (eraseKey m2 k) := by
  constructor
  · intro g
    by_cases hg : g = k
    · subst hg
      rw [lookupLast_eraseKey_self, lookupLast_eraseKey_self]
    · rw [lookupLast_eraseKey_ne _ _ _ hg, lookupLast_eraseKey_ne _ _ _ hg]
      exact h.1 g
  · intro g
    rw [mem_keys_eraseKey, mem_keys_eraseKey]
    simp [h.2 g]

/-- The UDT field loop is invariant under observational equivalence of the
value map: equal payloads or errors, and equivalent leftover maps. -/
theorem serializeUdtFields_equiv (typ : ColumnType) :
    ∀ (fts : List (String × ColumnType)) (m1 m2 : List (String × Option CqlValue)),
      MapEquiv m1 m2 →
      loopEquiv (serializeUdtFields typ fts m1) (serializeUdtFields typ fts m2) := by
  intro fts
  induction fts with
  | nil =>
    intro m1 m2 h
    simp only [serializeUdtFields, loopEquiv]
    exact ⟨trivial, h⟩
  | cons e rest ih =>
    obtain ⟨fname, ftyp⟩ := e
    intro m1 m2 h
    have hihe := ih (eraseKey m1 fname) (eraseKey m2 fname) (eraseKey_equiv _ _ _ h)
    have hsame : (lookupLast m1 fname).bind id = (lookupLast m2 fname).bind id := by
      rw [h.1 fname]
    simp only [serializeUdtFields]
    cases hfv : (lookupLast m1 fname).bind id with
    | none =>
      cases hfv2 : (lookupLast m2 fname).bind id with
      | some v => rw [hfv, hfv2] at hsame; exact Option.noConfusion hsame
      | none =>
        simp only [hfv, hfv2]
        revert hihe
        cases hr1 : serializeUdtFields typ rest (eraseKey m1 fname) with
        | error e1 =>
          cases hr2 : serializeUdtFields typ rest (eraseKey m2 fname) with
          | error e2 => intro hh; simpa [loopEquiv] using hh
          | ok pr => intro hh; simp [loopEquiv] at hh
        | ok pr1 =>
          obtain ⟨t1, L1⟩ := pr1
          cases hr2 : serializeUdtFields typ rest (eraseKey m2 fname) with
          | error e2 => intro hh; simp [loopEquiv] at hh
          | ok pr2 =>
            obtain ⟨t2, L2⟩ := pr2
            intro hh
            simp only [loopEquiv] at hh ⊢
            exact ⟨by rw [hh.1], hh.2⟩
    | some v =>
      cases hfv2 : (lookupLast m2 fname).bind id with
      | none => rw [hfv, hfv2] at hsame; exact Option.noConfusion hsame
      | some w =>
        have hvw : v = w := by
          rw [hfv, hfv2] at hsame
          exact Option.some.inj hsame
        subst hvw
        simp only [hfv, hfv2]
        cases hser : serialize_cql_value v ftyp with
        | error err => simp [loopEquiv]
        | ok c =>
          revert hihe
          cases hr1 : serializeUdtFields typ rest (eraseKey m1 fname) with
          | error e1 =>
            cases hr2 : serializeUdtFields typ rest (eraseKey m2 fname) with
            | error e2 => intro hh; simpa [loopEquiv] using hh
            | ok pr => intro hh; simp [loopEquiv] at hh
          | ok pr1 =>
            obtain ⟨t1, L1⟩ := pr1
            cases hr2 : serializeUdtFields typ rest (eraseKey m2 fname) with
            | error e2 => intro hh; simp [loopEquiv] at hh
            | ok pr2 =>
              obtain ⟨t2, L2⟩ := pr2
              intro hh
              simp only [loopEquiv] at hh ⊢
              exact ⟨by rw [hh.1], hh.2⟩

/-- `serialize_udt` is invariant under observational equivalence of the
value list. -/
theorem serialize_udt_equiv (typ : ColumnType) (ks tn : String)
    (v1 v2 : List (String × Option CqlValue)) (h : MapEquiv v1 v2) :
    serialize_udt typ ks tn v1 = serialize_udt typ ks tn v2 := by
  cases typ
  case UserDefinedType dtn dks fts =>
    simp only [serialize_udt]
    by_cases hg : ks ≠ dks ∨ tn ≠ dtn
    · rw [if_pos hg, if_pos hg]
    · rw [if_neg hg, if_neg hg]
      have hl := serializeUdtFields_equiv (.UserDefinedType dtn dks fts) fts v1 v2 h
      revert hl
      cases hr1 : serializeUdtFields (.UserDefinedType dtn dks fts) fts v1 with
      | error e1 =>
        cases hr2 : serializeUdtFields (.UserDefinedType dtn dks fts) fts v2 with
        | error e2 => intro hl; simp only [loopEquiv] at hl; rw [hl]
        | ok pr => intro hl; simp [loopEquiv] at hl
      | ok pr1 =>
        obtain ⟨p1, L1⟩ := pr1
        cases hr2 : serializeUdtFields (.UserDefinedType dtn dks fts) fts v2 with
        | error e2 => intro hl; simp [loopEquiv] at hl
        | ok pr2 =>
          obtain ⟨p2, L2⟩ := pr2
          intro hl
          simp only [loopEquiv] at hl
          obtain ⟨hp, hL⟩ := hl
          subst hp
          simp only [minKey_congr L1 L2 hL.2]
  all_goals simp [serialize_udt]

/-- C10: a dynamic UDT value containing the same field name more than once
does not error on the duplicate — an occurrence that is not the last one
for its name is ignored entirely: serialization of the value with such an
occurrence equals serialization of the value without it (so only the last
occurrence is serialized for the descriptor field, and earlier ones
neither produce output bytes nor count as leftover unmatched fields). -/
theorem udt_duplicate_field_last_wins (typ : ColumnType) (ks tn : String)
    (l1 l2 : List (String × Option CqlValue)) (k : String) (v1 : Option CqlValue)
    (hk : k ∈ l2.map Prod.fst) :
    serialize_udt typ ks tn (l1 ++ (k, v1) :: l2) =
      serialize_udt typ ks tn (l1 ++ l2) := by
  apply serialize_udt_equiv
  constructor
  · intro g
    cases hg : lookupLast l2 g with
    | some r =>
      have hcons : lookupLast ((k, v1) :: l2) g = some r := by
        rw [lookupLast_cons, hg]
      rw [lookupLast_append_right l1 _ g r hcons,
        lookupLast_append_right l1 l2 g r hg]
    | none =>
      have hgk : g ≠ k := by
        intro hgk
        subst hgk
        have hsome := lookupLast_isSome_of_mem l2 g hk
        rw [hg] at hsome
        simp at hsome
      have hcons : lookupLast ((k, v1) :: l2) g = none := by
        rw [lookupLast_cons, hg]
        exact if_neg (fun hh => hgk hh.symm)
      rw [lookupLast_append_left l1 _ g hcons,
        lookupLast_append_left l1 l2 g hg]
  · intro g
    simp only [List.map_append, List.mem_append, List.map_cons, List.mem_cons]
    constructor
    · rintro (h | h | h)
      · exact Or.inl h
      · exact Or.inr (h ▸ hk)
      · exact Or.inr h
    · rintro (h | h)
      · exact Or.inl h
      · exact Or.inr (Or.inr h)

/-- Witness for C10: two occurrences of field `a`; the first is ignored. -/
theorem udt_duplicate_field_last_wins_witness :
    serialize_udt (.UserDefinedType "t" "ks" [("a", .Int)]) "ks" "t"
        [("a", some (.Int 1)), ("a", some (.Int 2))] =
      serialize_udt (.UserDefinedType "t" "ks" [("a", .Int)]) "ks" "t"
        [("a", some (.Int 2))] := by
  have h := udt_duplicate_field_last_wins (.UserDefinedType "t" "ks" [("a", .Int)])
    "ks" "t" [] [("a", some (.Int 2))] "a" (some (.Int 1)) (by simp)
  simpa using h

end ScyllaCql
